import Mathlib

/-!
Verification development for the leptos-icons build pipeline
(src/build/src/main.rs and src/build/src/main_library/cargo_toml.rs).

The build pipeline downloads icon packages, extracts icons, sorts them,
renders one component per icon into a per-package module file, and
aggregates features / module names / per-package-type icon metadata into
shared state that the driver sorts and emits after all package tasks join.

This file gives a shallow embedding of that pipeline.  File contents are
modelled as Lean `String`s (the sources only ever write ASCII, where one
char is one byte); the file system is a partial map from paths to contents.
The module-file writes go through a `tokio::io::BufWriter` that the task
never flushes; since tokio's `BufWriter` discards its buffer on drop, only
the chunks the buffer had to flush on overflow reach the file, and the
final buffered tail is lost.  The embedding models this buffer machine
explicitly (capacity 8192 bytes, `bufWriterFlushed`).  Concurrent fan-out
is modelled as running the package tasks in an arbitrary order; every
aggregate-state theorem below is stated up to permutation of that order,
which also covers the finer interleavings the real scheduler can produce,
because each task performs each of its three aggregate writes as a single
atomic block under the corresponding lock.
-/

/-- Modelled from the spec: `PackageType` is the fixed enumeration of known
icon packages (src/build/src/package.rs is not among the provided sources).
We use a representative six-variant enumeration; every theorem below
depends only on the enumeration being a fixed, complete and duplicate-free
list known before fan-out, which we prove for this model. -/
inductive PackageType where
  | ai | bi | bs | fa | fi | ri
deriving DecidableEq, Repr

/-- Modelled from the spec: `PackageType::iter()` (strum `IntoEnumIterator`,
used at src/build/src/main.rs:68) lists every variant exactly once, in
declaration order. -/
def PackageType.iter : List PackageType :=
  [.ai, .bi, .bs, .fa, .fi, .ri]

/-- Modelled from the spec (src/build/src/feature.rs is not among the
provided sources): a `Feature` carries the icon's canonical name and the
owning package's short name; features compare by name (lexicographic),
with the remaining field breaking ties the way a derived `Ord` would. -/
structure Feature where
  name : String
  pkgShortName : String
deriving DecidableEq, Repr

/-- `IconMeta` as built at src/build/src/main.rs:104-107: the icon's
feature name together with its category list. -/
structure IconMeta where
  name : String
  categories : List String
deriving DecidableEq, Repr

/-- The fields of `Icon` that src/build/src/main.rs consumes:
`component_name` (sort key), `feature`, `categories`, and the result of
`create_leptos_icon_component()`.  The renderer itself lives in modules
that are not among the provided sources; per the spec it is a pure,
deterministic, fallible function of the icon, so we carry its result as a
field: `some text` for a successful render, `none` for a `RenderError`
(which the source unwraps, i.e. panics on). -/
structure Icon where
  componentName : String
  feature : Feature
  categories : List String
  renderResult : Option String
deriving DecidableEq, Repr

/-- Outcome of a fallible collaborator call (`Result` in the source). -/
inductive Fallible (α : Type) where
  | ok (value : α)
  | err (msg : String)
deriving DecidableEq, Repr

/-- One package together with the outcomes of its environment
interactions: `package.download()` (src/build/src/main.rs:83),
`parse::get_icons(&package)` (main.rs:94), the module-file open
(main.rs:150-154) and whether the module-file writes succeed
(main.rs:161-167, which unwrap on failure). -/
structure PackageInput where
  ty : PackageType
  shortName : String
  download : Fallible Unit
  extraction : Fallible (List Icon)
  openModFile : Fallible Unit
  writeOk : Bool
deriving DecidableEq, Repr

/-- The shared aggregate state of src/build/src/main.rs:65-69: the global
feature list, the global module list, and the per-package-type icon
metadata table (an ordered association list, as the source uses a
`Vec<(PackageType, Vec<IconMeta>)>`). -/
structure AggState where
  features : List Feature
  modules : List String
  packageIconMetadata : List (PackageType × List IconMeta)
deriving DecidableEq, Repr

/-- The file system: a partial map from paths to file contents. -/
def FS : Type := String → Option String

/-- Store `content` at path `p`. -/
def writeFile (fs : FS) (p : String) (content : String) : FS :=
  fun q => if q = p then some content else fs q

/-- Effect of writing `new` from position 0 into a file opened with
`create(true).write(true)` and no `truncate` (src/build/src/main.rs:150-152):
a missing file is created with exactly `new`; an existing file keeps
whatever previously stored bytes lie beyond the end of `new`. -/
def overwriteNoTruncate (old : Option String) (new : String) : String :=
  match old with
  | none => new
  | some o => new ++ o.drop new.length

/-- The fixed module header written at src/build/src/main.rs:162. -/
def moduleHeader : String := "use leptos::*;\n\n"

/-- The module file path derived from the package short name at
src/build/src/main.rs:146-148. -/
def modPath (shortName : String) : String :=
  "leptos-icons/src/" ++ shortName ++ ".rs"

/-- The metadata projection of src/build/src/main.rs:104-107. -/
def iconMetaOf (icon : Icon) : IconMeta :=
  { name := icon.feature.name, categories := icon.categories }

/-- Rust's `Ord` on `String` compares UTF-8 byte sequences, which orders
strings exactly like the lexicographic order on their scalar-value
sequences; we embed it as the lexicographic order on `String.data`. -/
def strLe (a b : String) : Prop := a.data ≤ b.data

/-- Strict version of `strLe`. -/
def strLt (a b : String) : Prop := a.data < b.data

instance : DecidableRel strLe := fun a b =>
  inferInstanceAs (Decidable (a.data ≤ b.data))

instance : DecidableRel strLt := fun a b =>
  inferInstanceAs (Decidable (a.data < b.data))

instance : IsTotal String strLe := ⟨fun a b => le_total a.data b.data⟩

instance : IsTrans String strLe := ⟨fun _ _ _ h1 h2 => le_trans h1 h2⟩

instance : IsAntisymm String strLe :=
  ⟨fun _ _ h1 h2 => String.ext (le_antisymm h1 h2)⟩

/-- The comparison used by `icons.sort_by` at src/build/src/main.rs:98:
icons ordered by `component_name`. -/
def iconLE (a b : Icon) : Prop := strLe a.componentName b.componentName

instance : DecidableRel iconLE := fun a b =>
  inferInstanceAs (Decidable (a.componentName.data ≤ b.componentName.data))

instance : IsTotal Icon iconLE :=
  ⟨fun a b => le_total a.componentName.data b.componentName.data⟩

instance : IsTrans Icon iconLE :=
  ⟨fun _ _ _ hab hbc => le_trans hab hbc⟩

/-- `icons.sort_by(|a, b| a.component_name.cmp(&b.component_name))`
(src/build/src/main.rs:98).  Rust's `sort_by` is a stable sort; we embed
it as insertion sort, which is also stable for the same total preorder and
hence produces the same list. -/
def sortIcons (icons : List Icon) : List Icon :=
  List.insertionSort iconLE icons

def tableKeys (table : List (PackageType × List IconMeta)) : List PackageType :=
  table.map Prod.fst

/-- Lookup in the metadata table: the first entry with the given key, as
`iter().find(...)` would return it. -/
def tableLookup (table : List (PackageType × List IconMeta)) (t : PackageType) :
    Option (List IconMeta) :=
  (table.find? (fun e => decide (e.1 = t))).map Prod.snd

/-- The table update of src/build/src/main.rs:110-114:
`lock.iter_mut().find(|(p, _)| *p == package.ty).expect(...).1 = meta`.
It replaces the value of the first entry whose key matches; `none` models
the `expect` panic taken when no entry matches. -/
def setPackageIconMeta :
    List (PackageType × List IconMeta) → PackageType → List IconMeta →
    Option (List (PackageType × List IconMeta))
  | [], _, _ => none
  | (p, v) :: rest, t, meta =>
    if p = t then some ((p, meta) :: rest)
    else (setPackageIconMeta rest t meta).map (fun r => (p, v) :: r)

/-- How a spawned package task ends: a clean return, an `Err` return
(logged and swallowed by the driver), or a panic (an `unwrap`/`expect`
firing inside the task). -/
inductive TaskOutcome where
  | success
  | failure (msg : String)
  | panicked (msg : String)
deriving DecidableEq, Repr

/-- The default buffer capacity of `tokio::io::BufWriter`, in bytes
(one byte per char over the ASCII output the emitter produces). -/
def bufWriterCapacity : Nat := 8192

/-- One `write_all` of chunk `c` into the `tokio::io::BufWriter` wrapping
the module file (src/build/src/main.rs:149-167).  State: `(flushed,
buffer)` — the text already written through to the file and the text still
sitting in the buffer.  If the chunk would overflow the buffer, the buffer
is first flushed to the file; a chunk at least as large as the whole
capacity is then written straight through, otherwise it is appended to the
buffer. -/
def bufWriterWrite (s : String × String) (c : String) : String × String :=
  let s1 :=
    if bufWriterCapacity < s.2.length + c.length then (s.1 ++ s.2, "") else s
  if bufWriterCapacity ≤ c.length then (s1.1 ++ c, "") else (s1.1, s1.2 ++ c)

/-- The `(flushed, buffer)` state after writing all chunks into a fresh
`BufWriter`. -/
def bufWriterState (chunks : List String) : String × String :=
  chunks.foldl bufWriterWrite ("", "")

/-- The text that actually reaches the module file: the task never calls
`flush` and tokio's `BufWriter` discards its buffer on drop, so only the
flushed part of the state survives. -/
def bufWriterFlushed (chunks : List String) : String :=
  (bufWriterState chunks).1

/-- `icons.into_iter().map(|icon| icon.create_leptos_icon_component().unwrap()).collect()`
(src/build/src/main.rs:133-138): all renders succeed, or the first failing
unwrap panics the task (`none`). -/
def renderAll : List Icon → Option (List String)
  | [] => some []
  | i :: rest =>
    match i.renderResult, renderAll rest with
    | some s, some tail => some (s :: tail)
    | _, _ => none

/-- One package task, src/build/src/main.rs:77-169, run with the default
`--clean=false` (so the initial `package.remove()` is skipped).  Stages in
source order: download, extraction, sort, metadata-table replace, feature
appends, module append, component rendering (unwrap), module-file open,
module-file writes (unwrap).  Failures before the aggregate writes leave
the aggregate state untouched; failures after them do not roll them back.
The module file is opened with `create(true).write(true)` and no
`truncate`, and written through a `BufWriter` that is never flushed: only
`bufWriterFlushed` of the written chunks reaches the file, overlaid from
offset 0 on whatever the file held before. -/
def processPackage (pkg : PackageInput) (st : AggState) (fs : FS) :
    AggState × FS × TaskOutcome :=
  match pkg.download with
  | .err e => (st, fs, .failure e)
  | .ok _ =>
    match pkg.extraction with
    | .err e => (st, fs, .failure e)
    | .ok rawIcons =>
      let icons := sortIcons rawIcons
      match setPackageIconMeta st.packageIconMetadata pkg.ty (icons.map iconMetaOf) with
      | none => (st, fs, .panicked "should have been initialized")
      | some table =>
        let st1 : AggState :=
          { features := st.features ++ icons.map Icon.feature
            modules := st.modules ++ [pkg.shortName]
            packageIconMetadata := table }
        match renderAll icons with
        | none => (st1, fs, .panicked "icon component rendering failed")
        | some comps =>
          match pkg.openModFile with
          | .err e => (st1, fs, .failure e)
          | .ok _ =>
            if pkg.writeOk then
              let content := bufWriterFlushed (moduleHeader :: comps)
              (st1,
               writeFile fs (modPath pkg.shortName)
                 (overwriteNoTruncate (fs (modPath pkg.shortName)) content),
               .success)
            else (st1, fs, .panicked "mod file write failed")

/-- The fan-out of src/build/src/main.rs:71-172, serialized in the order
of the given list; theorems about aggregate state are stated up to
permutation of this order. -/
def fanout (pkgs : List PackageInput) (st : AggState) (fs : FS) :
    AggState × FS × List TaskOutcome :=
  match pkgs with
  | [] => (st, fs, [])
  | pkg :: rest =>
    let r := processPackage pkg st fs
    let r2 := fanout rest r.1 r.2.1
    (r2.1, r2.2.1, r.2.2 :: r2.2.2)

def isPanic (o : TaskOutcome) : Bool :=
  match o with
  | .panicked _ => true
  | _ => false

/-- The driver's join loop, src/build/src/main.rs:173-177:
`handle.await.unwrap()` panics the driver as soon as some task panicked;
an `Err` returned by a task is logged and swallowed. -/
def joinAborts (outs : List TaskOutcome) : Bool :=
  outs.any isPanic

/-- The pre-seeded metadata table of src/build/src/main.rs:67-69:
`PackageType::iter().map(|p| (p, vec![])).collect()`. -/
def initTable : List (PackageType × List IconMeta) :=
  PackageType.iter.map (fun p => (p, []))

/-- The aggregate state before fan-out (src/build/src/main.rs:65-69). -/
def initState : AggState :=
  { features := [], modules := [], packageIconMetadata := initTable }

/-- `modules.sort()` (src/build/src/main.rs:183): lexicographic sort of
the module names. -/
def sortModules (mods : List String) : List String :=
  List.insertionSort strLe mods

/-- The ordering of the derived `Ord` on `Feature` used by `lock.sort()`
at src/build/src/main.rs:201: by name, ties broken by the remaining
field. -/
def featureLE (a b : Feature) : Prop :=
  strLt a.name b.name ∨ (a.name = b.name ∧ strLe a.pkgShortName b.pkgShortName)

instance : DecidableRel featureLE := fun a b =>
  inferInstanceAs (Decidable (a.name.data < b.name.data ∨ (a.name = b.name ∧ a.pkgShortName.data ≤ b.pkgShortName.data)))

instance : IsTotal Feature featureLE := by
  refine ⟨fun a b => ?_⟩
  rcases lt_trichotomy a.name.data b.name.data with h | h | h
  · exact Or.inl (Or.inl h)
  · rcases le_total a.pkgShortName.data b.pkgShortName.data with h2 | h2
    · exact Or.inl (Or.inr ⟨String.ext h, h2⟩)
    · exact Or.inr (Or.inr ⟨String.ext h.symm, h2⟩)
  · exact Or.inr (Or.inl h)

instance : IsTrans Feature featureLE := by
  refine ⟨fun a b c hab hbc => ?_⟩
  rcases hab with h1 | ⟨e1, l1⟩
  · rcases hbc with h2 | ⟨e2, _⟩
    · exact Or.inl (h1.trans h2)
    · exact Or.inl (by rw [← e2]; exact h1)
  · rcases hbc with h2 | ⟨e2, l2⟩
    · exact Or.inl (by rw [e1]; exact h2)
    · exact Or.inr ⟨e1.trans e2, l1.trans l2⟩

instance : IsAntisymm Feature featureLE := by
  refine ⟨fun a b hab hba => ?_⟩
  have hn : a.name = b.name := by
    rcases hab with h1 | ⟨e1, _⟩
    · rcases hba with h2 | ⟨e2, _⟩
      · exact absurd (h1.trans h2) (lt_irrefl _)
      · exact e2.symm
    · exact e1
  have hs : a.pkgShortName = b.pkgShortName := by
    rcases hab with h1 | ⟨_, l1⟩
    · rw [hn] at h1
      exact absurd h1 (lt_irrefl _)
    · rcases hba with h2 | ⟨_, l2⟩
      · rw [hn] at h2
        exact absurd h2 (lt_irrefl _)
      · exact String.ext (le_antisymm l1 l2)
  cases a
  cases b
  simp_all

/-- `lock.sort()` on the feature list (src/build/src/main.rs:201). -/
def sortFeatures (feats : List Feature) : List Feature :=
  List.insertionSort featureLE feats

/-- The module registration fragment written into lib.rs at
src/build/src/main.rs:186-191: one `pub mod NAME;` line per module, in
the (sorted) order of the list. -/
def renderModuleRegistration (mods : List String) : String :=
  String.join (mods.map (fun m => "pub mod " ++ m ++ ";\n"))

/-- The aggregate artifacts the driver produces after the join
(src/build/src/main.rs:179-218): the sorted module list, the sorted
feature list, the metadata table exactly as the fan-out left it (it is
never sorted), the lib.rs registration fragment, and the file system
holding the per-package module files. -/
structure RunOutput where
  modulesSorted : List String
  featuresSorted : List Feature
  packageIconMetadata : List (PackageType × List IconMeta)
  libRsFragment : String
  fs : FS

/-- The whole run of src/build/src/main.rs:65-218: seed the aggregate
state, fan out one task per package, join (a panicked task panics the
driver: `none`), then sort modules and features and produce the aggregate
artifacts. -/
def runDriver (pkgs : List PackageInput) (fs0 : FS) : Option RunOutput :=
  let r := fanout pkgs initState fs0
  if joinAborts r.2.2 then none
  else
    let mods := sortModules r.1.modules
    some { modulesSorted := mods
           featuresSorted := sortFeatures r.1.features
           packageIconMetadata := r.1.packageIconMetadata
           libRsFragment := renderModuleRegistration mods
           fs := r.2.1 }

/-- The aggregate-artifact view of a run output (everything except the
file system, which is a function and has no decidable equality). -/
def artifacts (o : RunOutput) :
    List String × List Feature × List (PackageType × List IconMeta) × String :=
  (o.modulesSorted, o.featuresSorted, o.packageIconMetadata, o.libRsFragment)

/-- Did this package's task get past download and extraction?  Exactly the
tasks for which src/build/src/main.rs:100-129 performs all three aggregate
writes (metadata replace, feature appends, module append). -/
def okThrough (pkg : PackageInput) : Bool :=
  match pkg.download, pkg.extraction with
  | .ok _, .ok _ => true
  | _, _ => false

/-- The icons a successful extraction yields (meaningful when
`okThrough pkg = true`). -/
def extractedIcons (pkg : PackageInput) : List Icon :=
  match pkg.extraction with
  | .ok icons => icons
  | .err _ => []

/-- The feature block this package appends to the global feature list
(src/build/src/main.rs:117-123), in sorted icon order. -/
def pkgFeatures (pkg : PackageInput) : List Feature :=
  (sortIcons (extractedIcons pkg)).map Icon.feature

/-- The metadata sequence this package stores in its table entry
(src/build/src/main.rs:100-115), in sorted icon order. -/
def pkgMeta (pkg : PackageInput) : List IconMeta :=
  (sortIcons (extractedIcons pkg)).map iconMetaOf

/-- The outcome of one package task, as a function of the package input
alone (valid whenever the metadata table holds the package's type, which
the pre-seeding guarantees). -/
def outcomeOf (pkg : PackageInput) : TaskOutcome :=
  match pkg.download with
  | .err e => .failure e
  | .ok _ =>
    match pkg.extraction with
    | .err e => .failure e
    | .ok rawIcons =>
      match renderAll (sortIcons rawIcons) with
      | none => .panicked "icon component rendering failed"
      | some _ =>
        match pkg.openModFile with
        | .err e => .failure e
        | .ok _ =>
          if pkg.writeOk then .success else .panicked "mod file write failed"

/-- The metadata value the fan-out leaves in the entry for type `t`:
the contribution of the last task in processing order that reached the
metadata write for `t`, if any. -/
def lastMeta (pkgs : List PackageInput) (t : PackageType) :
    Option (List IconMeta) :=
  match pkgs with
  | [] => none
  | pkg :: rest =>
    match lastMeta rest t with
    | some m => some m
    | none =>
      if okThrough pkg && decide (pkg.ty = t) then some (pkgMeta pkg) else none

/-- Entry-wise effect of a whole fan-out on a duplicate-free metadata
table: each entry keeps its key and receives the last contribution for
that key, if any. -/
def applyRun (pkgs : List PackageInput)
    (table : List (PackageType × List IconMeta)) :
    List (PackageType × List IconMeta) :=
  table.map (fun e =>
    match lastMeta pkgs e.1 with
    | some m => (e.1, m)
    | none => e)

/-- The generated Cargo.toml banner, `BASE_CARGO_TOML` of
src/build/src/main_library/cargo_toml.rs:9-16 (after `indoc` strips the
leading newline and the common indentation). -/
def BASE_CARGO_TOML : String :=
  "# ------------------------------------------------------------------------------------------\n# THIS FILE WAS GENERATED BY THE \"BUILD\" CRATE.\n# ------------------------------------------------------------------------------------------\n\n"

/-- `tokio::fs::remove_file` guarded by `self.path.exists()`
(src/build/src/main_library/cargo_toml.rs:42-45). -/
def removeFileIfExists (f : Option String) : Option String :=
  if f.isSome then none else f

/-- `CargoToml::create_file` (src/build/src/main_library/cargo_toml.rs:26-38):
`create_new(true).write(true)` fails when the file exists and otherwise
creates it empty. -/
def createNewFile (f : Option String) : Fallible (Option String) :=
  match f with
  | some _ => .err "File exists"
  | none => .ok (some "")

/-- `CargoToml::reset` (src/build/src/main_library/cargo_toml.rs:40-53):
remove the file when present, then create it anew and write the banner. -/
def cargoTomlReset (f : Option String) : Fallible (Option String) :=
  match createNewFile (removeFileIfExists f) with
  | .err e => .err e
  | .ok g => .ok (some (overwriteNoTruncate g BASE_CARGO_TOML))

/-- Split a raw name into words: non-alphanumeric characters separate
words (and are dropped), and a lower-to-upper case transition starts a new
word.  The accumulator holds the current word reversed. -/
def splitWordsAux : List Char → List Char → List (List Char)
  | [], acc => if acc.isEmpty then [] else [acc.reverse]
  | c :: cs, acc =>
    if c.isAlphanum = false then
      if acc.isEmpty then splitWordsAux cs [] else acc.reverse :: splitWordsAux cs []
    else if c.isUpper && (match acc with | a :: _ => a.isLower | [] => false) then
      acc.reverse :: splitWordsAux cs [c]
    else
      splitWordsAux cs (c :: acc)

def capitalizeWord : List Char → List Char
  | [] => []
  | c :: cs => c.toUpper :: cs.map Char.toLower

/-- Modelled from the spec: the upper-camel-case conversion of §4.1
(`to_upper_camel_case` from the external `heck` crate, used at
src/build/src/main_library/cargo_toml.rs:162 and 176): a pure, total,
deterministic function over ASCII alphanumerics and common separators
that capitalizes the first letter of each word and lowercases the rest. -/
def toUpperCamelCase (s : String) : String :=
  String.mk (((splitWordsAux s.data []).map capitalizeWord).flatten)

/-- One icon library as consumed by the manifest emitters of
src/build/src/main_library/cargo_toml.rs: its crate name (`lib.name`,
e.g. "leptos-icons-ai"), its package short name
(`lib.package.meta.short_name`) and its icon list (`lib.icons`). -/
structure IconLibrary where
  name : String
  shortName : String
  icons : List Icon
deriving DecidableEq, Repr

/-- The fixed `[features]` header written at
src/build/src/main_library/cargo_toml.rs:145-154. -/
def featuresSectionHeader : String := "[features]\nserde = [\"dep:serde\"]\n\n"

/-- One umbrella feature line, src/build/src/main_library/cargo_toml.rs:156-167:
the upper-camel-cased package short name mapped to the empty list. -/
def umbrellaChunk (lib : IconLibrary) : String :=
  toUpperCamelCase lib.shortName ++ " = []\n"

/-- One dependent feature line, src/build/src/main_library/cargo_toml.rs:169-184:
the icon's feature flag enabling the package umbrella flag and the
crate-qualified downstream flag. -/
def dependentChunk (lib : IconLibrary) (icon : Icon) : String :=
  icon.feature.name ++ " = [\"" ++ toUpperCamelCase lib.shortName ++ "\", \"" ++
    lib.name ++ "/" ++ icon.feature.name ++ "\"]\n"

/-- The sequence of `write_all` payloads of `write_features_section`
(src/build/src/main_library/cargo_toml.rs:142-191): header, then one
umbrella line per library, then one dependent line per icon of each
library. -/
def featureSectionChunks (libs : List IconLibrary) : List String :=
  featuresSectionHeader ::
    (libs.map umbrellaChunk ++
      libs.flatMap (fun lib => lib.icons.map (dependentChunk lib)))

/-- The text `write_features_section` leaves in the manifest: the
concatenation of its write payloads. -/
def writeFeaturesSection (libs : List IconLibrary) : String :=
  String.join (featureSectionChunks libs)

/-- The entry-wise form of one metadata-table update: replace the value of
an entry whose key is `t`, leave every other entry alone. -/
def updEntry (t : PackageType) (m : List IconMeta)
    (e : PackageType × List IconMeta) : PackageType × List IconMeta :=
  if e.1 = t then (e.1, m) else e

/-- The run reaches its terminal state: the driver survives the join and
emits the aggregate artifacts (src/build/src/main.rs:173-218). -/
def runReachesDone (pkgs : List PackageInput) (fs0 : FS) : Bool :=
  (runDriver pkgs fs0).isSome

/-- The empty file system (no file exists at any path). -/
def emptyFS : FS := fun _ => none

/-- A sample icon whose component renders successfully; used by concrete
witnesses. -/
def sampleIcon (n : String) : Icon :=
  { componentName := n
    feature := { name := "Ai" ++ n, pkgShortName := "ai" }
    categories := ["general"]
    renderResult := some ("component " ++ n ++ "\n") }

/-- A fully healthy package whose extraction yields icons named B, A, C in
that (unsorted) order. -/
def samplePkgAi : PackageInput :=
  { ty := .ai
    shortName := "ai"
    download := .ok ()
    extraction := .ok [sampleIcon "B", sampleIcon "A", sampleIcon "C"]
    openModFile := .ok ()
    writeOk := true }

/-- A healthy package contributing the module name "alpha". -/
def samplePkgAlpha : PackageInput :=
  { ty := .bi
    shortName := "alpha"
    download := .ok ()
    extraction := .ok [sampleIcon "Alpha"]
    openModFile := .ok ()
    writeOk := true }

/-- A healthy package contributing the module name "zeta". -/
def samplePkgZeta : PackageInput :=
  { ty := .bs
    shortName := "zeta"
    download := .ok ()
    extraction := .ok [sampleIcon "Zeta"]
    openModFile := .ok ()
    writeOk := true }

/-- A package whose download fails. -/
def samplePkgDownloadFail : PackageInput :=
  { ty := .fa
    shortName := "fa"
    download := .err "connection refused"
    extraction := .ok []
    openModFile := .ok ()
    writeOk := true }

/-- A package whose extraction fails. -/
def samplePkgExtractFail : PackageInput :=
  { ty := .fi
    shortName := "fi"
    download := .ok ()
    extraction := .err "malformed svg"
    openModFile := .ok ()
    writeOk := true }

/-- A package with one icon whose component rendering fails, so that the
task hits the rendering `unwrap` and panics. -/
def samplePkgRenderFail : PackageInput :=
  { ty := .ri
    shortName := "ri"
    download := .ok ()
    extraction := .ok [{ sampleIcon "Z" with renderResult := none }]
    openModFile := .ok ()
    writeOk := true }

/-- A file system holding, at the module path of `samplePkgAi`, a stale
file strictly longer than the text the new run writes. -/
def staleLongFS : FS :=
  fun p =>
    if p = modPath "ai" then
      some "xxxxxxxxxxxxxxxxxxxxxxxxxxxxxxxxxxxxxxxxxxxxxxxxxxxxxxxxxxxxxxxxxxxxxxxxxxxxxxxx"
    else none

/-- The icon of the spec's worked example: feature "AiPushpinTwotone"
under package short name "ai". -/
def aiPushpinIcon : Icon :=
  { componentName := "AiPushpinTwotone"
    feature := { name := "AiPushpinTwotone", pkgShortName := "ai" }
    categories := []
    renderResult := some "component AiPushpinTwotone\n" }

/-- The icon library of the spec's worked example: crate
"leptos-icons-ai", short name "ai". -/
def aiLibrary : IconLibrary :=
  { name := "leptos-icons-ai"
    shortName := "ai"
    icons := [aiPushpinIcon] }

theorem PackageType.mem_iter (t : PackageType) : t ∈ PackageType.iter := by
  cases t <;> decide

theorem PackageType.iter_nodup : PackageType.iter.Nodup := by decide

theorem initTable_keys : tableKeys initTable = PackageType.iter := by
  decide

theorem tableLookup_initTable (t : PackageType) :
    tableLookup initTable t = some [] := by
  cases t <;> decide

theorem setPackageIconMeta_isSome_iff
    (table : List (PackageType × List IconMeta)) (t : PackageType)
    (m : List IconMeta) :
    (setPackageIconMeta table t m).isSome = true ↔ t ∈ tableKeys table := by
  induction table with
  | nil => simp [setPackageIconMeta, tableKeys]
  | cons e rest ih =>
    obtain ⟨p, v⟩ := e
    by_cases hpt : p = t
    · subst hpt
      simp [setPackageIconMeta, tableKeys]
    · simp [setPackageIconMeta, hpt, tableKeys, Option.isSome_map] at ih ⊢
      rw [ih]
      tauto

theorem setPackageIconMeta_eq_none
    (table : List (PackageType × List IconMeta)) (t : PackageType)
    (m : List IconMeta) (h : t ∉ tableKeys table) :
    setPackageIconMeta table t m = none := by
  cases hs : setPackageIconMeta table t m with
  | none => rfl
  | some table2 =>
    exact absurd ((setPackageIconMeta_isSome_iff table t m).mp (by rw [hs]; rfl)) h


theorem updEntry_fst (t : PackageType) (m : List IconMeta)
    (e : PackageType × List IconMeta) : (updEntry t m e).1 = e.1 := by
  unfold updEntry
  split <;> rfl

theorem map_updEntry_of_not_mem (t : PackageType) (m : List IconMeta)
    (table : List (PackageType × List IconMeta)) (h : t ∉ tableKeys table) :
    table.map (updEntry t m) = table := by
  induction table with
  | nil => rfl
  | cons e rest ih =>
    simp only [tableKeys, List.map_cons, List.mem_cons] at h
    push_neg at h
    simp only [List.map_cons]
    rw [ih (by simpa [tableKeys] using h.2)]
    have : updEntry t m e = e := by
      unfold updEntry
      rw [if_neg (by exact fun hc => h.1 hc.symm)]
    rw [this]

theorem tableKeys_map_updEntry (t : PackageType) (m : List IconMeta)
    (table : List (PackageType × List IconMeta)) :
    tableKeys (table.map (updEntry t m)) = tableKeys table := by
  induction table with
  | nil => rfl
  | cons e rest ih =>
    simp only [tableKeys, List.map_cons] at ih ⊢
    rw [updEntry_fst]
    exact congrArg _ ih

theorem setPackageIconMeta_eq_map
    (table : List (PackageType × List IconMeta)) (t : PackageType)
    (m : List IconMeta) (hnd : (tableKeys table).Nodup)
    (hmem : t ∈ tableKeys table) :
    setPackageIconMeta table t m = some (table.map (updEntry t m)) := by
  induction table with
  | nil => simp [tableKeys] at hmem
  | cons e rest ih =>
    obtain ⟨p, v⟩ := e
    simp only [tableKeys, List.map_cons, List.nodup_cons] at hnd
    by_cases hpt : p = t
    · subst hpt
      have hrest : p ∉ tableKeys rest := hnd.1
      simp only [setPackageIconMeta, if_pos rfl, List.map_cons]
      rw [map_updEntry_of_not_mem p m rest hrest]
      simp [updEntry]
    · have hmem2 : t ∈ tableKeys rest := by
        simp only [tableKeys, List.map_cons, List.mem_cons] at hmem
        tauto
      simp only [setPackageIconMeta, if_neg hpt, List.map_cons]
      rw [ih hnd.2 hmem2]
      have : updEntry t m (p, v) = (p, v) := by
        unfold updEntry
        rw [if_neg hpt]
      simp [this]

theorem tableLookup_applyRun (pkgs : List PackageInput)
    (table : List (PackageType × List IconMeta)) (t : PackageType) :
    tableLookup (applyRun pkgs table) t =
      match lastMeta pkgs t with
      | some m => (tableLookup table t).map (fun _ => m)
      | none => tableLookup table t := by
  unfold applyRun tableLookup
  rw [List.find?_map]
  have hcomp : ((fun e : PackageType × List IconMeta => decide (e.1 = t)) ∘
      (fun e : PackageType × List IconMeta =>
        match lastMeta pkgs e.1 with
        | some m => (e.1, m)
        | none => e)) = fun e => decide (e.1 = t) := by
    funext e
    obtain ⟨p, v⟩ := e
    simp only [Function.comp]
    have hfst : ∀ o : Option (List IconMeta),
        (match o with
          | some m => (p, m)
          | none => (p, v)).1 = p := by
      intro o
      cases o <;> rfl
    rw [hfst]
  rw [hcomp]
  cases hf : table.find? (fun e => decide (e.1 = t)) with
  | none => cases h2 : lastMeta pkgs t <;> simp [h2]
  | some e =>
    obtain ⟨p, v⟩ := e
    have he : p = t := by
      have := List.find?_some hf
      simpa using this
    subst he
    cases h2 : lastMeta pkgs p <;> simp [hf, h2]

theorem lastMeta_cons (pkg : PackageInput) (rest : List PackageInput)
    (t : PackageType) :
    lastMeta (pkg :: rest) t =
      match lastMeta rest t with
      | some m => some m
      | none =>
        if okThrough pkg && decide (pkg.ty = t) then some (pkgMeta pkg)
        else none := rfl

theorem lastMeta_cons_notOk (pkg : PackageInput) (rest : List PackageInput)
    (t : PackageType) (h : okThrough pkg = false) :
    lastMeta (pkg :: rest) t = lastMeta rest t := by
  rw [lastMeta_cons]
  cases h2 : lastMeta rest t <;> simp [h, h2]

theorem lastMeta_none (pkgs : List PackageInput) (t : PackageType)
    (h : ∀ pkg ∈ pkgs, pkg.ty = t → okThrough pkg = false) :
    lastMeta pkgs t = none := by
  induction pkgs with
  | nil => rfl
  | cons pkg rest ih =>
    have hrest := ih (fun q hq => h q (List.mem_cons_of_mem pkg hq))
    unfold lastMeta
    rw [hrest]
    by_cases hty : pkg.ty = t
    · rw [h pkg (List.mem_cons_self pkg rest) hty]
      simp
    · simp [hty]

theorem processPackage_fail (pkg : PackageInput) (st : AggState) (fs : FS)
    (h : okThrough pkg = false) :
    (processPackage pkg st fs).1 = st ∧ (processPackage pkg st fs).2.1 = fs ∧
      (processPackage pkg st fs).2.2 = outcomeOf pkg := by
  cases hd : pkg.download with
  | err e => simp [processPackage, outcomeOf, hd]
  | ok u =>
    cases he : pkg.extraction with
    | err e2 => simp [processPackage, outcomeOf, hd, he]
    | ok icons =>
      exfalso
      unfold okThrough at h
      rw [hd, he] at h
      simp at h

theorem processPackage_ok (pkg : PackageInput) (st : AggState) (fs : FS)
    (hok : okThrough pkg = true)
    (hnd : (tableKeys st.packageIconMetadata).Nodup)
    (hmem : pkg.ty ∈ tableKeys st.packageIconMetadata) :
    (processPackage pkg st fs).1 =
      { features := st.features ++ pkgFeatures pkg
        modules := st.modules ++ [pkg.shortName]
        packageIconMetadata :=
          st.packageIconMetadata.map (updEntry pkg.ty (pkgMeta pkg)) } ∧
    (processPackage pkg st fs).2.2 = outcomeOf pkg := by
  cases hd : pkg.download with
  | err e =>
    exfalso
    unfold okThrough at hok
    rw [hd] at hok
    simp at hok
  | ok u =>
    cases he : pkg.extraction with
    | err e2 =>
      exfalso
      unfold okThrough at hok
      rw [hd, he] at hok
      simp at hok
    | ok icons =>
      have hset := setPackageIconMeta_eq_map st.packageIconMetadata pkg.ty
        ((sortIcons icons).map iconMetaOf) hnd hmem
      have hext : extractedIcons pkg = icons := by
        unfold extractedIcons
        rw [he]
      have hmeta : pkgMeta pkg = (sortIcons icons).map iconMetaOf := by
        unfold pkgMeta
        rw [hext]
      have hfeat : pkgFeatures pkg = (sortIcons icons).map Icon.feature := by
        unfold pkgFeatures
        rw [hext]
      rw [hmeta, hfeat]
      simp only [processPackage, outcomeOf, hd, he, hset]
      cases hr : renderAll (sortIcons icons) with
      | none => exact ⟨rfl, rfl⟩
      | some comps =>
        cases ho : pkg.openModFile with
        | err e3 => exact ⟨rfl, rfl⟩
        | ok u2 =>
          cases hw : pkg.writeOk <;> simp [hw]

theorem fanout_cons (pkg : PackageInput) (rest : List PackageInput)
    (st : AggState) (fs : FS) :
    fanout (pkg :: rest) st fs =
      ((fanout rest (processPackage pkg st fs).1 (processPackage pkg st fs).2.1).1,
       (fanout rest (processPackage pkg st fs).1 (processPackage pkg st fs).2.1).2.1,
       (processPackage pkg st fs).2.2 ::
         (fanout rest (processPackage pkg st fs).1 (processPackage pkg st fs).2.1).2.2) :=
  rfl

theorem fanout_append (l1 l2 : List PackageInput) (st : AggState) (fs : FS) :
    fanout (l1 ++ l2) st fs =
      ((fanout l2 (fanout l1 st fs).1 (fanout l1 st fs).2.1).1,
       (fanout l2 (fanout l1 st fs).1 (fanout l1 st fs).2.1).2.1,
       (fanout l1 st fs).2.2 ++
         (fanout l2 (fanout l1 st fs).1 (fanout l1 st fs).2.1).2.2) := by
  induction l1 generalizing st fs with
  | nil => simp [fanout]
  | cons pkg rest ih =>
    simp only [List.cons_append, fanout_cons, ih]

theorem applyRun_cons_ok (pkg : PackageInput) (rest : List PackageInput)
    (table : List (PackageType × List IconMeta)) (hok : okThrough pkg = true) :
    applyRun rest (table.map (updEntry pkg.ty (pkgMeta pkg))) =
      applyRun (pkg :: rest) table := by
  unfold applyRun
  rw [List.map_map]
  have hfun : ((fun e : PackageType × List IconMeta =>
        match lastMeta rest e.1 with
        | some m => (e.1, m)
        | none => e) ∘ updEntry pkg.ty (pkgMeta pkg)) =
      fun e : PackageType × List IconMeta =>
        match lastMeta (pkg :: rest) e.1 with
        | some m => (e.1, m)
        | none => e := by
    funext e
    obtain ⟨p, v⟩ := e
    by_cases hpt : p = pkg.ty
    · subst hpt
      simp only [Function.comp, updEntry, if_pos rfl]
      rw [lastMeta_cons]
      cases h2 : lastMeta rest pkg.ty <;> simp [hok, h2]
    · simp only [Function.comp, updEntry, if_neg hpt]
      rw [lastMeta_cons]
      have hne : (decide (pkg.ty = p)) = false := by
        simp
        exact fun hc => hpt hc.symm
      cases h2 : lastMeta rest p <;> simp [hok, h2, hne]
  rw [hfun]

theorem fanout_state (pkgs : List PackageInput) (st : AggState) (fs : FS)
    (hkeys : tableKeys st.packageIconMetadata = PackageType.iter) :
    (fanout pkgs st fs).1.modules =
        st.modules ++ (pkgs.filter okThrough).map PackageInput.shortName ∧
    (fanout pkgs st fs).1.features =
        st.features ++ (pkgs.filter okThrough).flatMap pkgFeatures ∧
    (fanout pkgs st fs).1.packageIconMetadata =
        applyRun pkgs st.packageIconMetadata ∧
    (fanout pkgs st fs).2.2 = pkgs.map outcomeOf := by
  induction pkgs generalizing st fs with
  | nil =>
    refine ⟨by simp [fanout], by simp [fanout], ?_, by simp [fanout]⟩
    show st.packageIconMetadata = applyRun [] st.packageIconMetadata
    unfold applyRun
    have : (fun e : PackageType × List IconMeta =>
        match lastMeta [] e.1 with
        | some m => (e.1, m)
        | none => e) = id := by
      funext e
      rfl
    rw [this, List.map_id]
  | cons pkg rest ih =>
    have hnd : (tableKeys st.packageIconMetadata).Nodup := by
      rw [hkeys]
      exact PackageType.iter_nodup
    have hmem : pkg.ty ∈ tableKeys st.packageIconMetadata := by
      rw [hkeys]
      exact PackageType.mem_iter pkg.ty
    cases hok : okThrough pkg with
    | false =>
      obtain ⟨h1, h2, h3⟩ := processPackage_fail pkg st fs hok
      obtain ⟨i1, i2, i3, i4⟩ :=
        ih (processPackage pkg st fs).1 (processPackage pkg st fs).2.1
          (by rw [h1, hkeys])
      rw [fanout_cons]
      have happ : applyRun (pkg :: rest) st.packageIconMetadata =
          applyRun rest st.packageIconMetadata := by
        unfold applyRun
        have : (fun e : PackageType × List IconMeta =>
            match lastMeta (pkg :: rest) e.1 with
            | some m => (e.1, m)
            | none => e) =
            fun e : PackageType × List IconMeta =>
              match lastMeta rest e.1 with
              | some m => (e.1, m)
              | none => e := by
          funext e
          rw [lastMeta_cons_notOk pkg rest e.1 hok]
        rw [this]
      refine ⟨?_, ?_, ?_, ?_⟩
      · rw [i1, h1, List.filter_cons, hok]
        simp
      · rw [i2, h1, List.filter_cons, hok]
        simp
      · rw [i3, h1, happ]
      · rw [i4, h3, List.map_cons]
    | true =>
      obtain ⟨h1, h2⟩ := processPackage_ok pkg st fs hok hnd hmem
      obtain ⟨i1, i2, i3, i4⟩ :=
        ih (processPackage pkg st fs).1 (processPackage pkg st fs).2.1
          (by rw [h1]; simpa [tableKeys_map_updEntry] using hkeys)
      rw [fanout_cons]
      refine ⟨?_, ?_, ?_, ?_⟩
      · rw [i1, h1, List.filter_cons, hok]
        simp
      · rw [i2, h1, List.filter_cons, hok]
        simp
      · rw [i3, h1]
        exact applyRun_cons_ok pkg rest st.packageIconMetadata hok
      · rw [i4, h2, List.map_cons]

theorem sortModules_perm_eq {l1 l2 : List String} (h : l1.Perm l2) :
    sortModules l1 = sortModules l2 :=
  List.eq_of_perm_of_sorted
    (((List.perm_insertionSort strLe l1).trans h).trans
      (List.perm_insertionSort strLe l2).symm)
    (List.sorted_insertionSort strLe l1)
    (List.sorted_insertionSort strLe l2)

theorem sortFeatures_perm_eq {l1 l2 : List Feature} (h : l1.Perm l2) :
    sortFeatures l1 = sortFeatures l2 :=
  List.eq_of_perm_of_sorted
    (((List.perm_insertionSort featureLE l1).trans h).trans
      (List.perm_insertionSort featureLE l2).symm)
    (List.sorted_insertionSort featureLE l1)
    (List.sorted_insertionSort featureLE l2)

theorem any_congr_perm {α : Type} (p : α → Bool) {l1 l2 : List α}
    (h : l1.Perm l2) : l1.any p = l2.any p := by
  have hiff : (l1.any p = true) ↔ (l2.any p = true) := by
    simp only [List.any_eq_true]
    constructor
    · rintro ⟨x, hx, hp⟩
      exact ⟨x, h.mem_iff.mp hx, hp⟩
    · rintro ⟨x, hx, hp⟩
      exact ⟨x, h.mem_iff.mpr hx, hp⟩
  cases h1 : l1.any p <;> cases h2 : l2.any p <;> simp_all

theorem joinAborts_perm {l1 l2 : List TaskOutcome} (h : l1.Perm l2) :
    joinAborts l1 = joinAborts l2 :=
  any_congr_perm isPanic h

theorem find?_eq_head_filter {α : Type} (p : α → Bool) (l : List α) :
    l.find? p = (l.filter p).head? := by
  induction l with
  | nil => rfl
  | cons a rest ih =>
    by_cases hp : p a = true
    · rw [List.find?_cons_of_pos rest hp, List.filter_cons, if_pos hp]
      rfl
    · rw [List.find?_cons_of_neg rest (by simp [hp]), List.filter_cons,
        if_neg (by simp [hp]), ih]

theorem find?_congr_perm {α : Type} (p : α → Bool) {l1 l2 : List α}
    (h : l1.Perm l2)
    (huniq : ∀ x ∈ l1, ∀ y ∈ l1, p x = true → p y = true → x = y) :
    l1.find? p = l2.find? p := by
  rw [find?_eq_head_filter, find?_eq_head_filter]
  have hf : (l1.filter p).Perm (l2.filter p) := h.filter p
  cases hf1 : l1.filter p with
  | nil =>
    rw [hf1] at hf
    rw [List.Perm.eq_nil hf.symm]
  | cons a r1 =>
    have ha1 : a ∈ l1.filter p := by
      rw [hf1]
      exact List.mem_cons_self a r1
    cases hf2 : l2.filter p with
    | nil =>
      rw [hf1, hf2] at hf
      simp at hf
    | cons b r2 =>
      have hb2 : b ∈ l2.filter p := by
        rw [hf2]
        exact List.mem_cons_self b r2
      have hb1 : b ∈ l1.filter p := (h.filter p).mem_iff.mpr hb2
      have hamem := List.mem_filter.mp ha1
      have hbmem := List.mem_filter.mp hb1
      have hab : a = b := huniq a hamem.1 b hbmem.1 hamem.2 hbmem.2
      rw [hab]
      rfl

theorem nodup_map_mem_inj {α β : Type} {f : α → β} {l : List α}
    (hnd : (l.map f).Nodup) :
    ∀ x ∈ l, ∀ y ∈ l, f x = f y → x = y := by
  induction l with
  | nil =>
    intro x hx
    simp at hx
  | cons a rest ih =>
    simp only [List.map_cons, List.nodup_cons] at hnd
    intro x hx y hy hf
    rcases List.mem_cons.mp hx with hxa | hxr
    · rcases List.mem_cons.mp hy with hya | hyr
      · rw [hxa, hya]
      · exfalso
        apply hnd.1
        rw [hxa] at hf
        rw [hf]
        exact List.mem_map_of_mem f hyr
    · rcases List.mem_cons.mp hy with hya | hyr
      · exfalso
        apply hnd.1
        rw [hya] at hf
        rw [← hf]
        exact List.mem_map_of_mem f hxr
      · exact ih hnd.2 x hxr y hyr hf

theorem lastMeta_eq_find? (pkgs : List PackageInput) (t : PackageType)
    (hnd : (pkgs.map PackageInput.ty).Nodup) :
    lastMeta pkgs t =
      (pkgs.find? (fun p => okThrough p && decide (p.ty = t))).map pkgMeta := by
  induction pkgs with
  | nil => rfl
  | cons pkg rest ih =>
    simp only [List.map_cons, List.nodup_cons] at hnd
    rw [lastMeta_cons, ih hnd.2]
    cases hf : rest.find? (fun p => okThrough p && decide (p.ty = t)) with
    | none =>
      by_cases hp : (okThrough pkg && decide (pkg.ty = t)) = true
      · rw [List.find?_cons_of_pos rest hp]
        simp [hp]
      · rw [List.find?_cons_of_neg rest (by simp_all)]
        simp [hp, hf]
    | some q =>
      have hq := List.find?_some hf
      have hqmem := List.mem_of_find?_eq_some hf
      have hqty : q.ty = t := by
        simp only [Bool.and_eq_true, decide_eq_true_eq] at hq
        exact hq.2
      have hpkg : ¬((okThrough pkg && decide (pkg.ty = t)) = true) := by
        intro hp
        simp only [Bool.and_eq_true, decide_eq_true_eq] at hp
        apply hnd.1
        rw [hp.2, ← hqty]
        exact List.mem_map_of_mem PackageInput.ty hqmem
      rw [List.find?_cons_of_neg rest hpkg]
      simp [hf]

theorem lastMeta_perm {pkgs1 pkgs2 : List PackageInput} (t : PackageType)
    (h : pkgs1.Perm pkgs2) (hnd : (pkgs1.map PackageInput.ty).Nodup) :
    lastMeta pkgs1 t = lastMeta pkgs2 t := by
  have hnd2 : (pkgs2.map PackageInput.ty).Nodup :=
    ((h.map PackageInput.ty).nodup_iff).mp hnd
  rw [lastMeta_eq_find? pkgs1 t hnd, lastMeta_eq_find? pkgs2 t hnd2]
  have hfind : pkgs1.find? (fun p => okThrough p && decide (p.ty = t)) =
      pkgs2.find? (fun p => okThrough p && decide (p.ty = t)) := by
    apply find?_congr_perm _ h
    intro x hx y hy hpx hpy
    simp only [Bool.and_eq_true, decide_eq_true_eq] at hpx hpy
    exact nodup_map_mem_inj hnd x hx y hy (by rw [hpx.2, hpy.2])
  rw [hfind]

theorem applyRun_perm {pkgs1 pkgs2 : List PackageInput}
    (h : pkgs1.Perm pkgs2) (hnd : (pkgs1.map PackageInput.ty).Nodup)
    (table : List (PackageType × List IconMeta)) :
    applyRun pkgs1 table = applyRun pkgs2 table := by
  unfold applyRun
  have hfun : (fun e : PackageType × List IconMeta =>
      match lastMeta pkgs1 e.1 with
      | some m => (e.1, m)
      | none => e) =
      fun e : PackageType × List IconMeta =>
        match lastMeta pkgs2 e.1 with
        | some m => (e.1, m)
        | none => e := by
    funext e
    rw [lastMeta_perm e.1 h hnd]
  rw [hfun]

theorem tableKeys_applyRun (pkgs : List PackageInput)
    (table : List (PackageType × List IconMeta)) :
    tableKeys (applyRun pkgs table) = tableKeys table := by
  unfold applyRun tableKeys
  rw [List.map_map]
  have hfun : (Prod.fst ∘ fun e : PackageType × List IconMeta =>
      match lastMeta pkgs e.1 with
      | some m => (e.1, m)
      | none => e) = Prod.fst := by
    funext e
    obtain ⟨p, v⟩ := e
    simp only [Function.comp]
    cases h2 : lastMeta pkgs p <;> simp [h2]
  rw [hfun]

theorem foldl_append_init (l : List String) (s : String) :
    l.foldl (fun a b => a ++ b) s = s ++ l.foldl (fun a b => a ++ b) "" := by
  induction l generalizing s with
  | nil => simp
  | cons a rest ih =>
    simp only [List.foldl_cons]
    rw [ih (s ++ a), ih ("" ++ a)]
    simp [String.append_assoc]

theorem join_cons (a : String) (rest : List String) :
    String.join (a :: rest) = a ++ String.join rest := by
  show (a :: rest).foldl (fun r s => r ++ s) "" = a ++ rest.foldl (fun r s => r ++ s) ""
  simp only [List.foldl_cons]
  rw [foldl_append_init rest ("" ++ a)]
  simp

theorem join_mem_split {c : String} {chunks : List String} (h : c ∈ chunks) :
    ∃ pre post, String.join chunks = pre ++ c ++ post := by
  induction chunks with
  | nil => simp at h
  | cons a rest ih =>
    rcases List.mem_cons.mp h with hc | hc
    · refine ⟨"", String.join rest, ?_⟩
      rw [join_cons, hc]
      simp
    · obtain ⟨pre, post, hp⟩ := ih hc
      refine ⟨a ++ pre, post, ?_⟩
      rw [join_cons, hp]
      simp [String.append_assoc]

theorem appendFeatureSuffix_injective (suffix : String) :
    Function.Injective (fun s : String => s ++ suffix) := by
  intro a b hab
  have hab2 : a ++ suffix = b ++ suffix := hab
  have hd : (a ++ suffix).data = (b ++ suffix).data := by rw [hab2]
  rw [String.data_append, String.data_append] at hd
  exact String.ext (List.append_cancel_right hd)

theorem bufWriterWrite_concat (s : String × String) (c : String) :
    (bufWriterWrite s c).1 ++ (bufWriterWrite s c).2 = s.1 ++ s.2 ++ c := by
  obtain ⟨fl, buf⟩ := s
  unfold bufWriterWrite
  by_cases h1 : bufWriterCapacity < buf.length + c.length
  · by_cases h2 : bufWriterCapacity ≤ c.length <;>
      simp [h1, h2, String.append_assoc]
  · by_cases h2 : bufWriterCapacity ≤ c.length
    · have hbuf : buf = "" := by
        apply String.ext
        apply List.length_eq_zero.mp
        show buf.length = 0
        omega
      simp [h1, h2, hbuf]
    · simp [h1, h2, String.append_assoc]

theorem foldl_bufWriterWrite_concat (chunks : List String) :
    ∀ s : String × String,
      (chunks.foldl bufWriterWrite s).1 ++ (chunks.foldl bufWriterWrite s).2 =
        s.1 ++ s.2 ++ String.join chunks := by
  induction chunks with
  | nil =>
    intro s
    rw [show String.join [] = "" from rfl]
    simp
  | cons c rest ih =>
    intro s
    simp only [List.foldl_cons]
    rw [ih (bufWriterWrite s c), bufWriterWrite_concat, join_cons,
      String.append_assoc]

/-- Whatever reaches the file is a prefix of the full text handed to the
writer; the missing tail is exactly the buffer discarded on drop. -/
theorem bufWriterFlushed_prefix (chunks : List String) :
    ∃ rest, String.join chunks = bufWriterFlushed chunks ++ rest := by
  refine ⟨(bufWriterState chunks).2, ?_⟩
  have h := foldl_bufWriterWrite_concat chunks ("", "")
  unfold bufWriterFlushed bufWriterState
  rw [h]
  simp

theorem foldl_bufWriterWrite_small (chunks : List String) :
    ∀ s : String × String,
      s.2.length + (String.join chunks).length < bufWriterCapacity →
      chunks.foldl bufWriterWrite s = (s.1, s.2 ++ String.join chunks) := by
  induction chunks with
  | nil =>
    intro s h
    obtain ⟨fl, buf⟩ := s
    rw [show String.join [] = "" from rfl]
    simp
  | cons c rest ih =>
    intro s h
    have hlen : (String.join (c :: rest)).length =
        c.length + (String.join rest).length := by
      rw [join_cons, String.length_append]
    have h1 : ¬bufWriterCapacity < s.2.length + c.length := by omega
    have h2 : ¬bufWriterCapacity ≤ c.length := by omega
    have hstep : bufWriterWrite s c = (s.1, s.2 ++ c) := by
      unfold bufWriterWrite
      simp [h1, h2]
    simp only [List.foldl_cons, hstep]
    rw [ih (s.1, s.2 ++ c) (by simp only [String.length_append]; omega)]
    rw [join_cons, String.append_assoc]

/-- When the whole module text fits inside the 8 KiB buffer, nothing is
ever flushed: the never-flushed writer loses all of it on drop. -/
theorem bufWriterFlushed_small (chunks : List String)
    (h : (String.join chunks).length < bufWriterCapacity) :
    bufWriterFlushed chunks = "" := by
  unfold bufWriterFlushed bufWriterState
  rw [foldl_bufWriterWrite_small chunks ("", "") (by simpa using h)]

theorem processPackage_success_file (pkg : PackageInput) (st : AggState)
    (fs : FS) (icons : List Icon) (comps : List String)
    (hdl : pkg.download = .ok ())
    (hex : pkg.extraction = .ok icons)
    (hty : pkg.ty ∈ tableKeys st.packageIconMetadata)
    (hr : renderAll (sortIcons icons) = some comps)
    (ho : pkg.openModFile = .ok ())
    (hw : pkg.writeOk = true) :
    (processPackage pkg st fs).2.1 (modPath pkg.shortName) =
      some (overwriteNoTruncate (fs (modPath pkg.shortName))
        (bufWriterFlushed (moduleHeader :: comps))) ∧
    (∀ q, q ≠ modPath pkg.shortName →
      (processPackage pkg st fs).2.1 q = fs q) := by
  cases hset : setPackageIconMeta st.packageIconMetadata pkg.ty
      ((sortIcons icons).map iconMetaOf) with
  | none =>
    exfalso
    have := (setPackageIconMeta_isSome_iff st.packageIconMetadata pkg.ty
      ((sortIcons icons).map iconMetaOf)).mpr hty
    rw [hset] at this
    simp at this
  | some table =>
    constructor
    · simp [processPackage, hdl, hex, hset, hr, ho, hw, writeFile]
    · intro q hq
      simp [processPackage, hdl, hex, hset, hr, ho, hw, writeFile, hq]

theorem tableLookup_map_updEntry_self
    (table : List (PackageType × List IconMeta)) (t : PackageType)
    (m : List IconMeta) (hmem : t ∈ tableKeys table) :
    tableLookup (table.map (updEntry t m)) t = some m := by
  induction table with
  | nil => simp [tableKeys] at hmem
  | cons e rest ih =>
    obtain ⟨p, v⟩ := e
    by_cases hpt : p = t
    · subst hpt
      simp [tableLookup, updEntry, List.find?_cons_of_pos]
    · have hmem2 : t ∈ tableKeys rest := by
        simp only [tableKeys, List.map_cons, List.mem_cons] at hmem
        rcases hmem with h | h
        · exact absurd h.symm hpt
        · exact h
      have hupd : updEntry t m (p, v) = (p, v) := by
        unfold updEntry
        rw [if_neg hpt]
      simp only [List.map_cons, hupd, tableLookup]
      rw [List.find?_cons_of_neg _ (by simp [hpt])]
      exact ih hmem2


/-- C5: throughout every run, the per-package-type icon-metadata table has
exactly one entry per known `PackageType`: starting from any state whose
key sequence is the full enumeration (as the pre-seeding at
src/build/src/main.rs:67-69 produces), after any fan-out the key sequence
is still the full enumeration, every type has entry count exactly one, and
the entry of a type none of whose packages got through stays exactly what
it was seeded as (empty), never missing. -/
theorem C5_metadata_table_always_complete (pkgs : List PackageInput)
    (st : AggState) (fs : FS)
    (hkeys : tableKeys st.packageIconMetadata = PackageType.iter) :
    tableKeys (fanout pkgs st fs).1.packageIconMetadata = PackageType.iter ∧
    (∀ t : PackageType,
      (tableKeys (fanout pkgs st fs).1.packageIconMetadata).count t = 1) ∧
    (∀ t : PackageType,
      (∀ pkg ∈ pkgs, pkg.ty = t → okThrough pkg = false) →
      tableLookup (fanout pkgs st fs).1.packageIconMetadata t =
        tableLookup st.packageIconMetadata t) := by
  obtain ⟨-, -, t3, -⟩ := fanout_state pkgs st fs hkeys
  refine ⟨?_, ?_, ?_⟩
  · rw [t3, tableKeys_applyRun, hkeys]
  · intro t
    rw [t3, tableKeys_applyRun, hkeys]
    exact List.count_eq_one_of_mem PackageType.iter_nodup (PackageType.mem_iter t)
  · intro t hfail
    rw [t3, tableLookup_applyRun, lastMeta_none pkgs t hfail]

/-- Witness for C5 at a concrete run: one package's download fails and one
package succeeds; the table keys remain the full enumeration, each type is
counted once, and the failing package's entry is untouched. -/
theorem C5_witness :
    tableKeys (fanout [samplePkgDownloadFail, samplePkgAlpha] initState
      emptyFS).1.packageIconMetadata = PackageType.iter ∧
    (∀ t : PackageType,
      (tableKeys (fanout [samplePkgDownloadFail, samplePkgAlpha] initState
        emptyFS).1.packageIconMetadata).count t = 1) ∧
    (∀ t : PackageType,
      (∀ pkg ∈ [samplePkgDownloadFail, samplePkgAlpha], pkg.ty = t →
        okThrough pkg = false) →
      tableLookup (fanout [samplePkgDownloadFail, samplePkgAlpha] initState
        emptyFS).1.packageIconMetadata t =
        tableLookup initState.packageIconMetadata t) :=
  C5_metadata_table_always_complete [samplePkgDownloadFail, samplePkgAlpha]
    initState emptyFS (by decide)

/-- C8: under the pre-seeding invariant the per-package metadata update
always finds its key (the `expect` at src/build/src/main.rs:113 is
unreachable); a key absent from the table makes the update abort (`none`,
the modelled panic), never silently insert; and on the actually seeded
table the lookup succeeds for every type. -/
theorem C8_seeded_lookup_never_panics
    (table : List (PackageType × List IconMeta)) (t : PackageType)
    (m : List IconMeta) :
    (t ∈ tableKeys table → (setPackageIconMeta table t m).isSome = true) ∧
    (t ∉ tableKeys table → setPackageIconMeta table t m = none) ∧
    (setPackageIconMeta initTable t m).isSome = true := by
  refine ⟨fun h => (setPackageIconMeta_isSome_iff table t m).mpr h,
    fun h => setPackageIconMeta_eq_none table t m h, ?_⟩
  exact (setPackageIconMeta_isSome_iff initTable t m).mpr
    (by rw [initTable_keys]; exact PackageType.mem_iter t)

/-- Witness for C8: the update at a concrete key of the seeded table
succeeds. -/
theorem C8_witness :
    (setPackageIconMeta initTable PackageType.bs
      [{ name := "BsX", categories := [] }]).isSome = true :=
  (C8_seeded_lookup_never_panics initTable PackageType.bs
    [{ name := "BsX", categories := [] }]).1 (by decide)

set_option maxRecDepth 8192 in
/-- C9: `CargoToml::reset` is idempotent: whatever the file held before
(and whether it existed), one reset leaves exactly the fixed base-manifest
banner, and resetting the resulting file again changes nothing. -/
theorem C9_cargo_toml_reset_idempotent (f : Option String) :
    cargoTomlReset f = .ok (some BASE_CARGO_TOML) ∧
    (∀ g, cargoTomlReset f = .ok g → cargoTomlReset g = cargoTomlReset f) := by
  have hbase : ∀ h : Option String, cargoTomlReset h = .ok (some BASE_CARGO_TOML) := by
    intro h
    cases h with
    | none => decide
    | some s =>
      show cargoTomlReset (some s) = .ok (some BASE_CARGO_TOML)
      have h1 : cargoTomlReset (some s) =
          .ok (some (overwriteNoTruncate (some "") BASE_CARGO_TOML)) := rfl
      rw [h1]
      decide
  refine ⟨hbase f, fun g hg => ?_⟩
  rw [hbase f] at hg
  cases hg
  rw [hbase (some BASE_CARGO_TOML), hbase f]

/-- C10: the metadata table keeps the fixed enumeration order it was
seeded with for the whole run: after any fan-out from a state whose key
sequence is the enumeration, the key sequence is unchanged; and the driver
hands the table to the documentation emission exactly as the fan-out left
it (never sorted), in enumeration order, while it does sort the module and
feature lists. -/
theorem C10_metadata_table_keeps_enum_order (pkgs : List PackageInput) :
    (∀ st fs, tableKeys st.packageIconMetadata = PackageType.iter →
      tableKeys (fanout pkgs st fs).1.packageIconMetadata =
        PackageType.iter) ∧
    (∀ fs0 out, runDriver pkgs fs0 = some out →
      out.packageIconMetadata =
          (fanout pkgs initState fs0).1.packageIconMetadata ∧
      tableKeys out.packageIconMetadata = PackageType.iter ∧
      out.modulesSorted = sortModules (fanout pkgs initState fs0).1.modules ∧
      out.featuresSorted =
        sortFeatures (fanout pkgs initState fs0).1.features) := by
  have hkey : ∀ (st : AggState) (fs : FS),
      tableKeys st.packageIconMetadata = PackageType.iter →
      tableKeys (fanout pkgs st fs).1.packageIconMetadata =
        PackageType.iter := by
    intro st fs hkeys
    obtain ⟨-, -, t3, -⟩ := fanout_state pkgs st fs hkeys
    rw [t3, tableKeys_applyRun, hkeys]
  refine ⟨hkey, ?_⟩
  intro fs0 out h
  simp only [runDriver] at h
  cases hj : joinAborts (fanout pkgs initState fs0).2.2 with
  | true =>
    rw [hj] at h
    simp at h
  | false =>
    rw [hj] at h
    simp only [Bool.false_eq_true, if_false, Option.some.injEq] at h
    subst h
    refine ⟨rfl, ?_, rfl, rfl⟩
    exact hkey initState fs0 (by rw [show initState.packageIconMetadata = initTable from rfl, initTable_keys])

/-- Witness for C10 at a concrete run whose completion order puts a
later-enumerated package first: the emitted table keys are still in
enumeration order. -/
theorem C10_witness :
    (∀ st fs, tableKeys st.packageIconMetadata = PackageType.iter →
      tableKeys (fanout [samplePkgZeta, samplePkgAlpha] st
        fs).1.packageIconMetadata = PackageType.iter) ∧
    (∀ fs0 out, runDriver [samplePkgZeta, samplePkgAlpha] fs0 = some out →
      out.packageIconMetadata =
          (fanout [samplePkgZeta, samplePkgAlpha] initState
            fs0).1.packageIconMetadata ∧
      tableKeys out.packageIconMetadata = PackageType.iter ∧
      out.modulesSorted = sortModules
        (fanout [samplePkgZeta, samplePkgAlpha] initState fs0).1.modules ∧
      out.featuresSorted = sortFeatures
        (fanout [samplePkgZeta, samplePkgAlpha] initState fs0).1.features) :=
  C10_metadata_table_keeps_enum_order [samplePkgZeta, samplePkgAlpha]

set_option maxRecDepth 16384 in
/-- C1 counterexample: with a longer stale file already at the module
path, the file after a fully successful package task is NOT exactly the
header followed by the rendered components.  Two source defects combine
here: the open at src/build/src/main.rs:150-152 sets
`create(true).write(true)` without `truncate`, and the `BufWriter` of
main.rs:149-167 is never flushed, so this sub-8-KiB module text never even
reaches the file and every stale byte survives.  This refutes the claim's
create-or-truncate semantics at a concrete input. -/
theorem C1_counterexample :
    (processPackage samplePkgAi initState staleLongFS).2.1 (modPath "ai") ≠
      some (moduleHeader ++ String.join
        ["component A\n", "component B\n", "component C\n"]) := by
  decide

/-- C1 (amended): step 7 hands the header and the rendered sorted
components, in order, to a buffered writer over a file opened
create-or-overwrite-from-the-start without truncation, and never flushes
it: the file afterwards holds exactly the buffer-overflow-flushed prefix
of the intended text overlaid from offset 0 (any bytes of a pre-existing
file beyond that prefix survive); what reaches the file is always a
prefix of the header followed by the rendered components; when no file
existed at the path the file holds exactly that flushed prefix; and
whenever the whole module text is smaller than the 8 KiB buffer the
flushed prefix is empty, so nothing reaches the file at all. -/
theorem C1_module_write_no_truncate (pkg : PackageInput) (st : AggState)
    (fs : FS) (icons : List Icon) (comps : List String)
    (hdl : pkg.download = .ok ())
    (hex : pkg.extraction = .ok icons)
    (hty : pkg.ty ∈ tableKeys st.packageIconMetadata)
    (hr : renderAll (sortIcons icons) = some comps)
    (ho : pkg.openModFile = .ok ())
    (hw : pkg.writeOk = true) :
    (processPackage pkg st fs).2.1 (modPath pkg.shortName) =
      some (overwriteNoTruncate (fs (modPath pkg.shortName))
        (bufWriterFlushed (moduleHeader :: comps))) ∧
    (∃ rest, moduleHeader ++ String.join comps =
      bufWriterFlushed (moduleHeader :: comps) ++ rest) ∧
    (fs (modPath pkg.shortName) = none →
      (processPackage pkg st fs).2.1 (modPath pkg.shortName) =
        some (bufWriterFlushed (moduleHeader :: comps))) ∧
    ((moduleHeader ++ String.join comps).length < bufWriterCapacity →
      bufWriterFlushed (moduleHeader :: comps) = "") := by
  obtain ⟨h1, -⟩ :=
    processPackage_success_file pkg st fs icons comps hdl hex hty hr ho hw
  refine ⟨h1, ?_, ?_, ?_⟩
  · obtain ⟨rest, hp⟩ := bufWriterFlushed_prefix (moduleHeader :: comps)
    rw [join_cons] at hp
    exact ⟨rest, hp⟩
  · intro hnone
    rw [h1, hnone]
    rfl
  · intro hsmall
    apply bufWriterFlushed_small
    rw [join_cons]
    exact hsmall

/-- Witness for C1 (amended) at a concrete fully successful package run
against an empty file system; since the module text is far smaller than
the 8 KiB buffer, the never-flushed writer loses all of it and the
created module file is empty. -/
theorem C1_witness :
    ((processPackage samplePkgAi initState emptyFS).2.1 (modPath "ai") =
      some (overwriteNoTruncate (emptyFS (modPath "ai"))
        (bufWriterFlushed (moduleHeader ::
          ["component A\n", "component B\n", "component C\n"]))) ∧
    (∃ rest, moduleHeader ++ String.join
        ["component A\n", "component B\n", "component C\n"] =
      bufWriterFlushed (moduleHeader ::
        ["component A\n", "component B\n", "component C\n"]) ++ rest) ∧
    (emptyFS (modPath "ai") = none →
      (processPackage samplePkgAi initState emptyFS).2.1 (modPath "ai") =
        some (bufWriterFlushed (moduleHeader ::
          ["component A\n", "component B\n", "component C\n"]))) ∧
    ((moduleHeader ++ String.join
        ["component A\n", "component B\n", "component C\n"]).length <
        bufWriterCapacity →
      bufWriterFlushed (moduleHeader ::
        ["component A\n", "component B\n", "component C\n"]) = "")) ∧
    (processPackage samplePkgAi initState emptyFS).2.1 (modPath "ai") =
      some "" :=
  ⟨C1_module_write_no_truncate samplePkgAi initState emptyFS
    [sampleIcon "B", sampleIcon "A", sampleIcon "C"]
    ["component A\n", "component B\n", "component C\n"]
    rfl rfl (by decide) (by decide) rfl rfl,
   by decide⟩

/-- C2 counterexample: a package whose component rendering fails makes the
task panic at the `unwrap` of src/build/src/main.rs:136, and the driver's
`handle.await.unwrap()` at main.rs:174 then panics as well: the run does
NOT reach its terminal state even though only a single package's
(rendering) stage failed.  This refutes the claim that every per-package
failure mode is swallowed at the join. -/
theorem C2_counterexample :
    runReachesDone [samplePkgRenderFail] emptyFS = false := by
  decide

/-- C2 (amended): for every per-package failure mode surfaced through the
task's Result channel — acquisition, extraction, or the module-file open —
the run still reaches its terminal state: the error is swallowed at the
driver's join, no other package's contribution is affected, and the driver
finalizes with whatever aggregate state the successful packages
populated.  (Failure modes that panic inside a task — a rendering failure
or a module-file write failure — abort the whole run at the join's
unwrap instead.) -/
theorem C2_result_errors_swallowed_at_join (pkgs : List PackageInput)
    (fs0 : FS) (hnp : ∀ pkg ∈ pkgs, isPanic (outcomeOf pkg) = false) :
    runReachesDone pkgs fs0 = true ∧
    (∀ out, runDriver pkgs fs0 = some out →
      out.modulesSorted =
        sortModules ((pkgs.filter okThrough).map PackageInput.shortName) ∧
      out.featuresSorted =
        sortFeatures ((pkgs.filter okThrough).flatMap pkgFeatures)) := by
  obtain ⟨m, f, -, outs⟩ := fanout_state pkgs initState fs0
    (by rw [show initState.packageIconMetadata = initTable from rfl, initTable_keys])
  have hjoin : joinAborts (fanout pkgs initState fs0).2.2 = false := by
    rw [outs]
    unfold joinAborts
    rw [List.any_eq_false]
    intro x hx
    obtain ⟨pkg, hpkg, hxeq⟩ := List.mem_map.mp hx
    rw [← hxeq]
    simp [hnp pkg hpkg]
  constructor
  · unfold runReachesDone
    simp only [runDriver, hjoin]
    rfl
  · intro out h
    simp only [runDriver, hjoin, Bool.false_eq_true, if_false,
      Option.some.injEq] at h
    subst h
    constructor
    · show sortModules (fanout pkgs initState fs0).1.modules = _
      rw [m]
      rfl
    · show sortFeatures (fanout pkgs initState fs0).1.features = _
      rw [f]
      rfl

/-- Witness for C2 (amended): a run with one download failure, one
extraction failure and one healthy package still reaches its terminal
state. -/
theorem C2_witness :
    runReachesDone [samplePkgDownloadFail, samplePkgExtractFail,
      samplePkgAlpha] emptyFS = true :=
  (C2_result_errors_swallowed_at_join
    [samplePkgDownloadFail, samplePkgExtractFail, samplePkgAlpha] emptyFS
    (by decide)).1

/-- C4 counterexample: a package yielding icons named B, A, C does NOT
emit its module's components in the order A, B, C — it emits none of
them.  The components are rendered in sorted order, but the `BufWriter`
of src/build/src/main.rs:149-167 is never flushed and discards its buffer
on drop, so this sub-8-KiB module text never reaches the file: the
created module file is empty. -/
theorem C4_counterexample :
    (processPackage samplePkgAi initState emptyFS).2.1 (modPath "ai") =
      some "" ∧
    (processPackage samplePkgAi initState emptyFS).2.1 (modPath "ai") ≠
      some (moduleHeader ++ String.join
        ["component A\n", "component B\n", "component C\n"]) := by
  constructor <;> decide

/-- C4 (amended): after step 3 of a package task the icon sequence is
sorted ascending by component name, it is a permutation of the extracted
icons, and every later per-package use consumes exactly that sorted
sequence: the features appended to the aggregator, the metadata stored in
the package's table entry, and the components rendered and handed to the
module-file writer are all maps over `sortIcons icons` — but because the
writer is never flushed, only the buffer-overflow-flushed prefix of that
sorted module text reaches the file (so whatever content does reach the
file is in sorted order, and a module text smaller than the 8 KiB buffer
reaches it not at all). -/
theorem C4_icons_sorted_before_all_uses (pkg : PackageInput)
    (st : AggState) (fs : FS) (icons : List Icon)
    (hdl : pkg.download = .ok ()) (hex : pkg.extraction = .ok icons)
    (hty : pkg.ty ∈ tableKeys st.packageIconMetadata)
    (hnd : (tableKeys st.packageIconMetadata).Nodup) :
    List.Sorted iconLE (sortIcons icons) ∧
    (sortIcons icons).Perm icons ∧
    (processPackage pkg st fs).1.features =
      st.features ++ (sortIcons icons).map Icon.feature ∧
    tableLookup (processPackage pkg st fs).1.packageIconMetadata pkg.ty =
      some ((sortIcons icons).map iconMetaOf) ∧
    (∀ comps, renderAll (sortIcons icons) = some comps →
      pkg.openModFile = .ok () → pkg.writeOk = true →
      (processPackage pkg st fs).2.1 (modPath pkg.shortName) =
        some (overwriteNoTruncate (fs (modPath pkg.shortName))
          (bufWriterFlushed (moduleHeader :: comps))) ∧
      (∃ rest, moduleHeader ++ String.join comps =
        bufWriterFlushed (moduleHeader :: comps) ++ rest)) := by
  have hok : okThrough pkg = true := by
    unfold okThrough
    rw [hdl, hex]
  obtain ⟨h1, -⟩ := processPackage_ok pkg st fs hok hnd hty
  have hfeat : pkgFeatures pkg = (sortIcons icons).map Icon.feature := by
    unfold pkgFeatures extractedIcons
    rw [hex]
  have hmeta : pkgMeta pkg = (sortIcons icons).map iconMetaOf := by
    unfold pkgMeta extractedIcons
    rw [hex]
  refine ⟨List.sorted_insertionSort iconLE icons,
    List.perm_insertionSort iconLE icons, ?_, ?_, ?_⟩
  · rw [h1]
    show st.features ++ pkgFeatures pkg = _
    rw [hfeat]
  · rw [h1]
    show tableLookup
      (st.packageIconMetadata.map (updEntry pkg.ty (pkgMeta pkg))) pkg.ty = _
    rw [tableLookup_map_updEntry_self st.packageIconMetadata pkg.ty
      (pkgMeta pkg) hty, hmeta]
  · intro comps hr ho hw
    refine ⟨(processPackage_success_file pkg st fs icons comps
      hdl hex hty hr ho hw).1, ?_⟩
    obtain ⟨rest, hp⟩ := bufWriterFlushed_prefix (moduleHeader :: comps)
    rw [join_cons] at hp
    exact ⟨rest, hp⟩

/-- Witness for C4 (amended): a package yielding icons named B, A, C
renders its components in the order A, B, C, and all the per-package uses
consume the sorted sequence; the module file receives the flushed prefix
of that sorted text. -/
theorem C4_witness :
    ((sortIcons [sampleIcon "B", sampleIcon "A", sampleIcon "C"]).map
      Icon.componentName = ["A", "B", "C"]) ∧
    (List.Sorted iconLE
      (sortIcons [sampleIcon "B", sampleIcon "A", sampleIcon "C"]) ∧
    (sortIcons [sampleIcon "B", sampleIcon "A", sampleIcon "C"]).Perm
      [sampleIcon "B", sampleIcon "A", sampleIcon "C"] ∧
    (processPackage samplePkgAi initState emptyFS).1.features =
      initState.features ++
        (sortIcons [sampleIcon "B", sampleIcon "A", sampleIcon "C"]).map
          Icon.feature ∧
    tableLookup
      (processPackage samplePkgAi initState emptyFS).1.packageIconMetadata
      samplePkgAi.ty =
      some ((sortIcons [sampleIcon "B", sampleIcon "A", sampleIcon "C"]).map
        iconMetaOf) ∧
    (∀ comps,
      renderAll (sortIcons [sampleIcon "B", sampleIcon "A", sampleIcon "C"]) =
        some comps →
      samplePkgAi.openModFile = .ok () → samplePkgAi.writeOk = true →
      (processPackage samplePkgAi initState emptyFS).2.1
        (modPath samplePkgAi.shortName) =
        some (overwriteNoTruncate (emptyFS (modPath samplePkgAi.shortName))
          (bufWriterFlushed (moduleHeader :: comps))) ∧
      (∃ rest, moduleHeader ++ String.join comps =
        bufWriterFlushed (moduleHeader :: comps) ++ rest))) :=
  ⟨by decide,
   C4_icons_sorted_before_all_uses samplePkgAi initState emptyFS
     [sampleIcon "B", sampleIcon "A", sampleIcon "C"]
     rfl rfl (by decide) (by decide)⟩

/-- C6: a package whose download fails stops before any write to shared
state: its task leaves the aggregate state and the file system exactly as
they were, a fan-out containing it equals the fan-out without it, and its
metadata-table entry is never populated. -/
theorem C6_download_failure_isolated (P : PackageInput) (e : String)
    (hdl : P.download = .err e) :
    (∀ st fs, processPackage P st fs = (st, fs, .failure e)) ∧
    (∀ l1 l2 st fs,
      (fanout (l1 ++ P :: l2) st fs).1 = (fanout (l1 ++ l2) st fs).1 ∧
      (fanout (l1 ++ P :: l2) st fs).2.1 = (fanout (l1 ++ l2) st fs).2.1) ∧
    (∀ pkgs st fs, P ∈ pkgs →
      (pkgs.map PackageInput.ty).Nodup →
      tableKeys st.packageIconMetadata = PackageType.iter →
      tableLookup (fanout pkgs st fs).1.packageIconMetadata P.ty =
        tableLookup st.packageIconMetadata P.ty) := by
  have hid : ∀ (st : AggState) (fs : FS),
      processPackage P st fs = (st, fs, .failure e) := by
    intro st fs
    simp [processPackage, hdl]
  refine ⟨hid, ?_, ?_⟩
  · intro l1 l2 st fs
    rw [fanout_append l1 (P :: l2) st fs, fanout_append l1 l2 st fs,
      fanout_cons, hid]
    exact ⟨rfl, rfl⟩
  · intro pkgs st fs hP hnd hkeys
    have hokP : okThrough P = false := by
      unfold okThrough
      rw [hdl]
    have hfail : ∀ pkg ∈ pkgs, pkg.ty = P.ty → okThrough pkg = false := by
      intro pkg hpkg hty
      have hpP : pkg = P := nodup_map_mem_inj hnd pkg hpkg P hP hty
      rw [hpP]
      exact hokP
    obtain ⟨-, -, t3, -⟩ := fanout_state pkgs st fs hkeys
    rw [t3, tableLookup_applyRun, lastMeta_none pkgs P.ty hfail]

/-- Witness for C6 at the concrete package whose download fails. -/
theorem C6_witness :
    (∀ st fs, processPackage samplePkgDownloadFail st fs =
      (st, fs, .failure "connection refused")) ∧
    (∀ l1 l2 st fs,
      (fanout (l1 ++ samplePkgDownloadFail :: l2) st fs).1 =
        (fanout (l1 ++ l2) st fs).1 ∧
      (fanout (l1 ++ samplePkgDownloadFail :: l2) st fs).2.1 =
        (fanout (l1 ++ l2) st fs).2.1) ∧
    (∀ pkgs st fs, samplePkgDownloadFail ∈ pkgs →
      (pkgs.map PackageInput.ty).Nodup →
      tableKeys st.packageIconMetadata = PackageType.iter →
      tableLookup (fanout pkgs st fs).1.packageIconMetadata
        samplePkgDownloadFail.ty =
        tableLookup st.packageIconMetadata samplePkgDownloadFail.ty) :=
  C6_download_failure_isolated samplePkgDownloadFail "connection refused" rfl

/-- C3: for any permutation of the order in which the concurrent package
tasks reach the shared aggregate state, the driver's post-join pass
produces identical aggregate artifacts: the sorted module list, the sorted
feature list, the metadata table and the lib.rs registration fragment all
coincide (provided, as in the real package set, no two packages share a
package type). -/
theorem C3_aggregate_artifacts_schedule_invariant (fs0 : FS)
    (pkgs1 pkgs2 : List PackageInput) (hperm : pkgs1.Perm pkgs2)
    (hnd : (pkgs1.map PackageInput.ty).Nodup) :
    (runDriver pkgs1 fs0).map artifacts =
      (runDriver pkgs2 fs0).map artifacts := by
  have hinit : tableKeys initState.packageIconMetadata = PackageType.iter := by
    rw [show initState.packageIconMetadata = initTable from rfl, initTable_keys]
  obtain ⟨m1, f1, t1, o1⟩ := fanout_state pkgs1 initState fs0 hinit
  obtain ⟨m2, f2, t2, o2⟩ := fanout_state pkgs2 initState fs0 hinit
  have hfilter : (pkgs1.filter okThrough).Perm (pkgs2.filter okThrough) :=
    hperm.filter okThrough
  have hmods : sortModules (fanout pkgs1 initState fs0).1.modules =
      sortModules (fanout pkgs2 initState fs0).1.modules := by
    rw [m1, m2]
    exact sortModules_perm_eq
      (List.Perm.append_left initState.modules
        (hfilter.map PackageInput.shortName))
  have hfeats : sortFeatures (fanout pkgs1 initState fs0).1.features =
      sortFeatures (fanout pkgs2 initState fs0).1.features := by
    rw [f1, f2]
    exact sortFeatures_perm_eq
      (List.Perm.append_left initState.features
        (List.Perm.flatMap_right pkgFeatures hfilter))
  have htbl : (fanout pkgs1 initState fs0).1.packageIconMetadata =
      (fanout pkgs2 initState fs0).1.packageIconMetadata := by
    rw [t1, t2]
    exact applyRun_perm hperm hnd initState.packageIconMetadata
  have houts : joinAborts (fanout pkgs1 initState fs0).2.2 =
      joinAborts (fanout pkgs2 initState fs0).2.2 := by
    rw [o1, o2]
    exact joinAborts_perm (hperm.map outcomeOf)
  simp only [runDriver]
  rw [houts]
  cases hj : joinAborts (fanout pkgs2 initState fs0).2.2 with
  | true => simp
  | false =>
    simp [artifacts, hmods, hfeats, htbl]

/-- Witness for C3: the two completion orders of the packages named
"zeta" and "alpha" yield identical artifacts, and the registration order
puts "alpha" before "zeta". -/
theorem C3_witness :
    ((runDriver [samplePkgZeta, samplePkgAlpha] emptyFS).map artifacts =
      (runDriver [samplePkgAlpha, samplePkgZeta] emptyFS).map artifacts) ∧
    sortModules ["zeta", "alpha"] = ["alpha", "zeta"] :=
  ⟨C3_aggregate_artifacts_schedule_invariant emptyFS
      [samplePkgZeta, samplePkgAlpha] [samplePkgAlpha, samplePkgZeta]
      (List.Perm.swap samplePkgAlpha samplePkgZeta [])
      (by decide),
   by decide⟩

/-- C7: the features section declares, for every icon library, one
umbrella flag line `S = []` (S the upper-camel-cased short name) — exactly
once among the umbrella lines when the camel-cased short names are
distinct — and, for every icon of the library, a dependent line
`F = ["S", "n/F"]` tying the icon flag to the umbrella flag and the
crate-qualified downstream flag; both lines occur inside the emitted
section text. -/
theorem C7_two_level_feature_graph (libs : List IconLibrary)
    (lib : IconLibrary) (icon : Icon)
    (hlib : lib ∈ libs) (hicon : icon ∈ lib.icons)
    (hnd : (libs.map (fun l => toUpperCamelCase l.shortName)).Nodup) :
    (toUpperCamelCase lib.shortName ++ " = []\n") ∈
      featureSectionChunks libs ∧
    (libs.map umbrellaChunk).count
      (toUpperCamelCase lib.shortName ++ " = []\n") = 1 ∧
    (icon.feature.name ++ " = [\"" ++ toUpperCamelCase lib.shortName ++
      "\", \"" ++ lib.name ++ "/" ++ icon.feature.name ++ "\"]\n") ∈
      featureSectionChunks libs ∧
    (∃ pre post, writeFeaturesSection libs =
      pre ++ (toUpperCamelCase lib.shortName ++ " = []\n") ++ post) ∧
    (∃ pre post, writeFeaturesSection libs =
      pre ++ (icon.feature.name ++ " = [\"" ++
        toUpperCamelCase lib.shortName ++ "\", \"" ++ lib.name ++ "/" ++
        icon.feature.name ++ "\"]\n") ++ post) := by
  have hum : (toUpperCamelCase lib.shortName ++ " = []\n") ∈
      featureSectionChunks libs := by
    unfold featureSectionChunks
    apply List.mem_cons_of_mem
    apply List.mem_append_left
    exact List.mem_map_of_mem umbrellaChunk hlib
  have hdep : (icon.feature.name ++ " = [\"" ++
      toUpperCamelCase lib.shortName ++ "\", \"" ++ lib.name ++ "/" ++
      icon.feature.name ++ "\"]\n") ∈ featureSectionChunks libs := by
    unfold featureSectionChunks
    apply List.mem_cons_of_mem
    apply List.mem_append_right
    rw [List.mem_flatMap]
    exact ⟨lib, hlib, List.mem_map_of_mem (dependentChunk lib) hicon⟩
  have hcount : (libs.map umbrellaChunk).count
      (toUpperCamelCase lib.shortName ++ " = []\n") = 1 := by
    have hmapmap : libs.map umbrellaChunk =
        (libs.map (fun l => toUpperCamelCase l.shortName)).map
          (fun s => s ++ " = []\n") := by
      rw [List.map_map]
      rfl
    have h1 := List.count_map_of_injective
      (libs.map (fun l => toUpperCamelCase l.shortName))
      (fun s : String => s ++ " = []\n")
      (appendFeatureSuffix_injective " = []\n")
      (toUpperCamelCase lib.shortName)
    have h2 : (libs.map (fun l => toUpperCamelCase l.shortName)).count
        (toUpperCamelCase lib.shortName) = 1 :=
      List.count_eq_one_of_mem hnd
        (List.mem_map_of_mem (fun l => toUpperCamelCase l.shortName) hlib)
    rw [h2] at h1
    rw [hmapmap]
    exact h1
  exact ⟨hum, hcount, hdep, join_mem_split hum, join_mem_split hdep⟩


/-- Witness for C7 at the spec's worked example: the emitted section
declares the standalone umbrella line and the dependent line exactly as
the spec spells them. -/
theorem C7_witness :
    toUpperCamelCase "ai" = "Ai" ∧
    ("Ai = []\n" ∈ featureSectionChunks [aiLibrary] ∧
     ([aiLibrary].map umbrellaChunk).count "Ai = []\n" = 1 ∧
     "AiPushpinTwotone = [\"Ai\", \"leptos-icons-ai/AiPushpinTwotone\"]\n" ∈
       featureSectionChunks [aiLibrary]) := by
  have h := C7_two_level_feature_graph [aiLibrary] aiLibrary aiPushpinIcon
    (List.mem_singleton.mpr rfl) (List.mem_singleton.mpr rfl) (by decide)
  exact ⟨by decide, h.1, h.2.1, h.2.2.1⟩

/-- Witness for C9: resetting over a concrete stale file yields exactly
the banner. -/
theorem C9_witness :
    cargoTomlReset (some "stale content") = .ok (some BASE_CARGO_TOML) :=
  (C9_cargo_toml_reset_idempotent (some "stale content")).1
